import Mathlib

/-!
Verification development for the `oclBilateralGaussian` filter of the libcl
image-processing toolkit (src/image/oclBilateralGaussian.h).

The repository fragment only declares the class interface:
  - `int compile();`
  - `int compute(oclDevice&, oclImage2D& bfSource, oclImage2D& bfDest);`
  - `void setRadius(cl_uint iValue);`
  - `void setScalar(cl_float iValue);`
  - `size_t mLocalSize[2];`
The implementations (host orchestration and the OpenCL kernel body) are not
part of the fragment, so they are modelled here from the specification
(spec.md sections 3, 4, 7).  Machine floats are modelled as exact rationals;
the Gaussian weight function itself (whose exact spatial-sigma relation the
spec leaves open) is a parameter of the model.
-/

namespace LibCL

/-- Modelled from the spec (§7, the concrete status values are not in the
fragment): the status codes a call can report. -/
inductive Status where
  | Ok : Status
  | InvalidParameter : Status
  | NotCompiled : Status
  | CompilationFailed : Status
  | DeviceDispatchFailed : Status
deriving DecidableEq, Repr

/-- A 2-D single-channel image: width, height and an intensity per pixel
coordinate (the multi-channel case is per-channel identical, spec §4.1).
Intensities are modelled as exact rationals in place of device floats. -/
structure Image where
  width : Nat
  height : Nat
  pix : Nat → Nat → ℚ

/-- Read an intensity at signed coordinates (used for neighborhood taps,
which are only ever dereferenced in-bounds, where both coordinates are
nonnegative). -/
def Image.intensity (img : Image) (x y : ℤ) : ℚ :=
  img.pix x.toNat y.toNat

/-- Modelled from the spec (§4.1, kernel-side contract; the kernel source is
absent from the fragment): the per-neighbor weight
`w dx dy neighborIntensity centerIntensity`.  The spec fixes the shape
`weight(p) = spatialWeight(dx,dy) * rangeWeight(p)` but leaves the exact
spatial-sigma relation open (§9), so the weight function is a parameter of
the model; the theorems below hold for every weight function. -/
def WeightFn : Type :=
  ℤ → ℤ → ℚ → ℚ → ℚ

/-- The `(2*radius+1) x (2*radius+1)` window of offsets around a center
pixel (spec §4.1). -/
def window (r : Nat) : Finset (ℤ × ℤ) :=
  Finset.Icc (-(r : ℤ)) r ×ˢ Finset.Icc (-(r : ℤ)) r

/-- A signed coordinate pair lies inside the image. -/
def inBounds (img : Image) (x y : ℤ) : Prop :=
  0 ≤ x ∧ x < img.width ∧ 0 ≤ y ∧ y < img.height

instance (img : Image) (x y : ℤ) : Decidable (inBounds img x y) := by
  unfold inBounds
  infer_instance

/-- Modelled from the spec (§4.1 edge policy): the neighborhood offsets that
contribute at center `(x, y)` — window taps that fall outside the image
bounds are excluded entirely (not clamped or wrapped). -/
def samples (img : Image) (r : Nat) (x y : Nat) : Finset (ℤ × ℤ) :=
  (window r).filter fun d => inBounds img ((x : ℤ) + d.1) ((y : ℤ) + d.2)

/-- The normalization denominator: the sum of the weights of the included
(in-bounds) samples (spec §4.1). -/
def denom (w : WeightFn) (img : Image) (r : Nat) (x y : Nat) : ℚ :=
  ∑ d ∈ samples img r x y,
    w d.1 d.2 (img.intensity ((x : ℤ) + d.1) ((y : ℤ) + d.2)) (img.pix x y)

/-- The weighted intensity sum over the included samples (spec §4.1). -/
def numer (w : WeightFn) (img : Image) (r : Nat) (x y : Nat) : ℚ :=
  ∑ d ∈ samples img r x y,
    w d.1 d.2 (img.intensity ((x : ℤ) + d.1) ((y : ℤ) + d.2)) (img.pix x y)
      * img.intensity ((x : ℤ) + d.1) ((y : ℤ) + d.2)

/-- Modelled from the spec (§4.1, kernel-side contract): one output pixel,
`(Σ weight * intensity) / (Σ weight)`, with the numeric-policy guard that a
zero denominator yields the center intensity. -/
def kernelPixel (w : WeightFn) (img : Image) (r : Nat) (x y : Nat) : ℚ :=
  if denom w img r x y = 0 then img.pix x y
  else numer w img r x y / denom w img r x y

/-- The fixed local work-group shape (spec §3 `WorkGroupShape`: chosen once,
not input-dependent; the concrete value is not observable in the fragment). -/
def workGroupShape : Nat × Nat :=
  (16, 16)

/-- The filter's host-side state: `compiled` abstracts the opaque
compiled-kernel handle of the `oclProgram`/`oclKernel` base ("compiled" vs
"not compiled", spec §6), `radius`/`rangeScalar` are the `FilterParameters`
(spec §3; `cl_uint` modelled as `Nat`, `cl_float` as `ℚ`), and `mLocalSize`
is the `size_t mLocalSize[2]` field of the header. -/
structure oclBilateralGaussian where
  compiled : Bool
  radius : Nat
  rangeScalar : ℚ
  mLocalSize : Nat × Nat

/-- Modelled from the spec (§4.1 construction; the constructor body is
absent): a fresh filter is not compiled, has valid default parameters, and
stores the fixed work-group shape. -/
def init : oclBilateralGaussian :=
  { compiled := false, radius := 0, rangeScalar := 1, mLocalSize := workGroupShape }

/-- Modelled from the spec (§4.1 `setRadius`; the body is absent): store the
radius.  The spec's §7 error kind `InvalidParameter (radius negative)` is
modelled as a literal check of the received value, which arrives through the
`cl_uint` boundary of the header and is therefore a natural number. -/
def setRadius (s : oclBilateralGaussian) (v : Nat) : oclBilateralGaussian × Status :=
  if (v : ℤ) < 0 then (s, Status.InvalidParameter)
  else ({ s with radius := v }, Status.Ok)

/-- Modelled from the spec (§4.1 `setScalar`; the body is absent): store the
range scalar.  The header's `void` return means the §7 `InvalidParameter`
check for a non-positive scalar is deferred to `compute()` (spec §9 allows
either placement). -/
def setScalar (s : oclBilateralGaussian) (v : ℚ) : oclBilateralGaussian :=
  { s with rangeScalar := v }

/-- Modelled from the spec (§4.1 `compile`; the body is absent): compile the
kernel source against the context.  `backendOk` abstracts the external
compilation backend's verdict; on success the compiled-kernel handle is
populated, on failure `CompilationFailed` is reported and the handle is not
populated (spec §3: invalid until compile succeeds). -/
def compile (s : oclBilateralGaussian) (backendOk : Bool) :
    oclBilateralGaussian × Status :=
  if backendOk then ({ s with compiled := true }, Status.Ok)
  else (s, Status.CompilationFailed)

/-- A call made on the filter instance between construction and the
`compute()` under scrutiny. -/
inductive Call where
  | radiusCall : Nat → Call
  | scalarCall : ℚ → Call
  | compileCall : Bool → Call

/-- Run a sequence of calls on the filter state. -/
def runCalls (s : oclBilateralGaussian) : List Call → oclBilateralGaussian
  | [] => s
  | Call.radiusCall v :: cs => runCalls (setRadius s v).1 cs
  | Call.scalarCall v :: cs => runCalls (setScalar s v) cs
  | Call.compileCall ok :: cs => runCalls (compile s ok).1 cs

/-- Round `n` up to the next multiple of `g` (global dispatch sizing,
spec §4.1 `compute`). -/
def roundUp (n g : Nat) : Nat :=
  (n + g - 1) / g * g

/-- All global work-item ids of a `gW x gH` dispatch grid. -/
def globalIds (gW gH : Nat) : List (Nat × Nat) :=
  (List.range gW).flatMap fun gx => (List.range gH).map fun gy => (gx, gy)

/-- Modelled from the spec (§4.1 `compute`): the work-items that actually
write a pixel — the rounded-up global grid with the out-of-range items
masked off on the kernel side. -/
def maskedIds (W H lx ly : Nat) : List (Nat × Nat) :=
  (globalIds (roundUp W lx) (roundUp H ly)).filter fun p =>
    decide (p.1 < W) && decide (p.2 < H)

/-- One work-item's effect: write the filtered value of pixel `p` of the
source into the destination. -/
def writePixel (w : WeightFn) (src : Image) (r : Nat) (d : Image)
    (p : Nat × Nat) : Image :=
  { d with pix := fun x y =>
      if x = p.1 ∧ y = p.2 then kernelPixel w src r p.1 p.2 else d.pix x y }

/-- The device dispatch: every unmasked work-item writes its pixel. -/
def runDispatch (w : WeightFn) (src dest : Image) (r : Nat) (lx ly : Nat) :
    Image :=
  (maskedIds src.width src.height lx ly).foldl (writePixel w src r) dest

/-- The sizes a dispatch was issued with (spec §4.1). -/
structure Dispatch where
  globalSize : Nat × Nat
  localSize : Nat × Nat
deriving DecidableEq, Repr

/-- What a `compute()` call produced: the status, the two image buffers as
they stand after the call, and the dispatch that was issued (if any). -/
structure ComputeResult where
  status : Status
  source : Image
  dest : Image
  dispatch : Option Dispatch

/-- Modelled from the spec (§4.1 `compute`; the body is absent): reject with
`NotCompiled` before a successful `compile()` (§7), reject a non-positive
range scalar with `InvalidParameter` (§7, validation deferred from the
`void` setter), reject mismatched source/dest dimensions before dispatch,
and otherwise dispatch the kernel over the rounded-up global grid with the
instance's fixed local work-group size, overwriting `dest` and leaving
`source` unmodified. -/
def compute (w : WeightFn) (s : oclBilateralGaussian) (src dest : Image) :
    ComputeResult :=
  if s.compiled = false then
    { status := Status.NotCompiled, source := src, dest := dest, dispatch := none }
  else if s.rangeScalar ≤ 0 then
    { status := Status.InvalidParameter, source := src, dest := dest, dispatch := none }
  else if src.width ≠ dest.width ∨ src.height ≠ dest.height then
    { status := Status.DeviceDispatchFailed, source := src, dest := dest, dispatch := none }
  else
    { status := Status.Ok
      source := src
      dest := runDispatch w src dest s.radius s.mLocalSize.1 s.mLocalSize.2
      dispatch := some
        { globalSize := (roundUp src.width s.mLocalSize.1, roundUp src.height s.mLocalSize.2)
          localSize := s.mLocalSize } }

/-- The in-bounds part of the `[0,radius] x [0,radius]` corner neighborhood,
as nonnegative coordinates (spec §8, border-pixel property). -/
def cornerSamples (img : Image) (r : Nat) : Finset (Nat × Nat) :=
  Finset.range (min (r + 1) img.width) ×ˢ Finset.range (min (r + 1) img.height)

/-- Direct reference denominator for the corner pixel `(0,0)`: the weights
summed over exactly the in-bounds `[0,radius] x [0,radius]` set. -/
def cornerDenom (w : WeightFn) (img : Image) (r : Nat) : ℚ :=
  ∑ d ∈ cornerSamples img r, w d.1 d.2 (img.pix d.1 d.2) (img.pix 0 0)

/-- A concrete all-ones weight function, used to instantiate theorems. -/
def wOne : WeightFn :=
  fun _ _ _ _ => 1

/-- A concrete all-zero weight function: the degenerate scenario in which
every weight has underflowed to zero. -/
def wZero : WeightFn :=
  fun _ _ _ _ => 0

/-- A concrete 3x3 constant image. -/
def imgConst : Image :=
  { width := 3, height := 3, pix := fun _ _ => 5 }

/-- A concrete 3x3 image with distinct pixel values. -/
def imgA : Image :=
  { width := 3, height := 3, pix := fun x y => (x : ℚ) + 3 * y }

/-- `imgA` with every pixel outside the `[0,1] x [0,1]` corner window
replaced, used to instantiate the corner-locality theorem. -/
def imgB : Image :=
  { width := 3, height := 3,
    pix := fun x y => if 2 ≤ x ∨ 2 ≤ y then 99 else (x : ℚ) + 3 * y }

/-- A concrete 2x2 image, dimensions distinct from the 3x3 images. -/
def imgSmall : Image :=
  { width := 2, height := 2, pix := fun _ _ => 7 }

/-- A concrete compiled filter state with valid parameters and a work-group
shape that does not divide the 3x3 test images. -/
def sReady : oclBilateralGaussian :=
  { compiled := true, radius := 1, rangeScalar := 1, mLocalSize := (2, 2) }

/-- Intensity lookup at cast coordinates is the pixel lookup. -/
theorem intensity_natCast (img : Image) (x y : Nat) :
    img.intensity (x : ℤ) (y : ℤ) = img.pix x y := by
  simp [Image.intensity]

/-- Membership in the sample set, unfolded to arithmetic. -/
theorem mem_samples {img : Image} {r x y : Nat} {d : ℤ × ℤ} :
    d ∈ samples img r x y ↔
      ((-(r : ℤ) ≤ d.1 ∧ d.1 ≤ r) ∧ (-(r : ℤ) ≤ d.2 ∧ d.2 ≤ r)) ∧
      (0 ≤ (x : ℤ) + d.1 ∧ (x : ℤ) + d.1 < img.width ∧
        0 ≤ (y : ℤ) + d.2 ∧ (y : ℤ) + d.2 < img.height) := by
  simp [samples, window, inBounds, Finset.mem_filter, Finset.mem_product,
    Finset.mem_Icc]

/-- With radius 0 the sample set of an in-bounds center is the single
center offset. -/
theorem samples_radius_zero {img : Image} {x y : Nat}
    (hx : x < img.width) (hy : y < img.height) :
    samples img 0 x y = {(0, 0)} := by
  ext d
  rw [mem_samples, Finset.mem_singleton]
  constructor
  · rintro ⟨⟨⟨h1, h2⟩, h3, h4⟩, -⟩
    have e1 : d.1 = 0 := le_antisymm (by exact_mod_cast h2) (by exact_mod_cast h1)
    have e2 : d.2 = 0 := le_antisymm (by exact_mod_cast h4) (by exact_mod_cast h3)
    exact Prod.ext e1 e2
  · rintro rfl
    refine ⟨by norm_num, ?_, ?_, ?_, ?_⟩ <;> push_cast <;> omega


/-- A constant image filters to the same constant at every center. -/
theorem kernelPixel_const (w : WeightFn) (img : Image) (c : ℚ)
    (hconst : ∀ a b, img.pix a b = c) (r x y : Nat) :
    kernelPixel w img r x y = c := by
  have hint : ∀ a b : ℤ, img.intensity a b = c := fun a b => hconst _ _
  unfold kernelPixel
  by_cases h : denom w img r x y = 0
  · rw [if_pos h, hconst]
  · rw [if_neg h]
    have hnum : numer w img r x y = denom w img r x y * c := by
      unfold numer denom
      rw [Finset.sum_mul]
      exact Finset.sum_congr rfl fun d _ => by simp only [hint, hconst]
    rw [hnum, mul_comm, mul_div_assoc, div_self h, mul_one]

/-- With radius 0 the kernel is the identity on every in-bounds pixel, for
every weight function. -/
theorem kernelPixel_radius_zero (w : WeightFn) (img : Image) (x y : Nat)
    (hx : x < img.width) (hy : y < img.height) :
    kernelPixel w img 0 x y = img.pix x y := by
  have hsamp := samples_radius_zero hx hy
  have hd : denom w img 0 x y = w 0 0 (img.pix x y) (img.pix x y) := by
    unfold denom
    rw [hsamp, Finset.sum_singleton]
    simp [intensity_natCast]
  have hn : numer w img 0 x y
      = w 0 0 (img.pix x y) (img.pix x y) * img.pix x y := by
    unfold numer
    rw [hsamp, Finset.sum_singleton]
    simp [intensity_natCast]
  unfold kernelPixel
  by_cases h : denom w img 0 x y = 0
  · rw [if_pos h]
  · rw [if_neg h, hn, ← hd, mul_comm, mul_div_assoc, div_self h, mul_one]

/-- Rounding up to a positive multiple never loses coverage. -/
theorem le_roundUp {n g : Nat} (hg : 0 < g) : n ≤ roundUp n g := by
  unfold roundUp
  rcases Nat.eq_zero_or_pos n with h0 | h0
  · omega
  · have h1 : n + g - 1 = n - 1 + g := by omega
    rw [h1, Nat.add_div_right _ hg, Nat.add_mul, Nat.one_mul]
    have h2 := Nat.lt_div_mul_add (a := n - 1) hg
    have h3 := Nat.succ_le_of_lt h2
    omega

/-- Membership in the global dispatch grid. -/
theorem mem_globalIds {gW gH : Nat} {p : Nat × Nat} :
    p ∈ globalIds gW gH ↔ p.1 < gW ∧ p.2 < gH := by
  unfold globalIds
  constructor
  · intro h
    rw [List.mem_flatMap] at h
    obtain ⟨gx, hgx, hmap⟩ := h
    rw [List.mem_map] at hmap
    obtain ⟨gy, hgy, rfl⟩ := hmap
    exact ⟨List.mem_range.mp hgx, List.mem_range.mp hgy⟩
  · rintro ⟨h1, h2⟩
    rw [List.mem_flatMap]
    refine ⟨p.1, List.mem_range.mpr h1, ?_⟩
    rw [List.mem_map]
    exact ⟨p.2, List.mem_range.mpr h2, rfl⟩

/-- The global dispatch grid lists each work-item id once. -/
theorem nodup_globalIds (gW gH : Nat) : (globalIds gW gH).Nodup := by
  unfold globalIds
  rw [List.nodup_flatMap]
  constructor
  · intro gx _
    exact (List.nodup_range gH).map fun a b h => by
      simpa using congrArg Prod.snd h
  · refine List.Pairwise.imp ?_ (List.nodup_range gW)
    intro a b hab q hqa hqb
    rw [List.mem_map] at hqa hqb
    obtain ⟨ya, -, rfl⟩ := hqa
    obtain ⟨yb, -, hq⟩ := hqb
    exact hab (congrArg Prod.fst hq).symm

/-- Membership in the masked dispatch list is exactly being an image
pixel. -/
theorem mem_maskedIds {W H lx ly : Nat} (hlx : 0 < lx) (hly : 0 < ly)
    (p : Nat × Nat) :
    p ∈ maskedIds W H lx ly ↔ p.1 < W ∧ p.2 < H := by
  unfold maskedIds
  rw [List.mem_filter]
  constructor
  · rintro ⟨-, h⟩
    simpa using h
  · rintro ⟨h1, h2⟩
    refine ⟨mem_globalIds.mpr ⟨?_, ?_⟩, by simp [h1, h2]⟩
    · exact lt_of_lt_of_le h1 (le_roundUp hlx)
    · exact lt_of_lt_of_le h2 (le_roundUp hly)

/-- In a duplicate-free list, a member is counted exactly once. -/
theorem count_eq_one_of_nodup_mem {α : Type} [BEq α] [LawfulBEq α]
    {l : List α} {a : α} (d : l.Nodup) (h : a ∈ l) : l.count a = 1 := by
  induction l with
  | nil => cases h
  | cons b l ih =>
    rw [List.count_cons]
    rcases List.mem_cons.mp h with rfl | hmem
    · have h0 : List.count a l = 0 :=
        List.count_eq_zero.mpr (List.nodup_cons.mp d).1
      rw [h0, if_pos (by simp)]
    · have hne : ¬((b == a) = true) := by
        simp only [beq_iff_eq]
        intro hba
        exact (List.nodup_cons.mp d).1 (hba ▸ hmem)
      rw [ih (List.nodup_cons.mp d).2 hmem, if_neg hne]

/-- Each image pixel appears exactly once in the masked dispatch list. -/
theorem count_maskedIds {W H lx ly x y : Nat} (hlx : 0 < lx) (hly : 0 < ly)
    (hx : x < W) (hy : y < H) :
    (maskedIds W H lx ly).count (x, y) = 1 := by
  apply count_eq_one_of_nodup_mem
  · exact (nodup_globalIds _ _).filter _
  · exact (mem_maskedIds hlx hly _).mpr ⟨hx, hy⟩

/-- Folding the per-work-item writes: a pixel listed among the ids ends up
holding its filtered value; any other pixel is untouched. -/
theorem foldl_writePixel (w : WeightFn) (src : Image) (r : Nat)
    (ids : List (Nat × Nat)) (d : Image) (x y : Nat) :
    (ids.foldl (writePixel w src r) d).pix x y =
      if (x, y) ∈ ids then kernelPixel w src r x y else d.pix x y := by
  induction ids generalizing d with
  | nil => simp
  | cons p ids ih =>
    rw [List.foldl_cons, ih]
    by_cases hmem : (x, y) ∈ ids
    · simp [hmem]
    · rw [if_neg hmem]
      by_cases hp : (x, y) = p
      · subst hp
        simp [writePixel]
      · have hne : ¬(x = p.1 ∧ y = p.2) := by
          rintro ⟨h1, h2⟩
          exact hp (Prod.ext h1 h2)
        simp only [writePixel, List.mem_cons, hmem, or_false, if_neg hne,
          if_neg hp]

/-- A successful dispatch writes the filtered value at every image pixel. -/
theorem runDispatch_pix (w : WeightFn) (src dest : Image) (r lx ly : Nat)
    (hlx : 0 < lx) (hly : 0 < ly) (x y : Nat)
    (hx : x < src.width) (hy : y < src.height) :
    (runDispatch w src dest r lx ly).pix x y = kernelPixel w src r x y := by
  unfold runDispatch
  rw [foldl_writePixel, if_pos ((mem_maskedIds hlx hly _).mpr ⟨hx, hy⟩)]

/-- A `compute` whose preconditions all hold takes the dispatch branch. -/
theorem compute_ok (w : WeightFn) (s : oclBilateralGaussian)
    (src dest : Image) (hc : s.compiled = true) (hs : 0 < s.rangeScalar)
    (hW : src.width = dest.width) (hH : src.height = dest.height) :
    compute w s src dest =
      { status := Status.Ok
        source := src
        dest := runDispatch w src dest s.radius s.mLocalSize.1 s.mLocalSize.2
        dispatch := some
          { globalSize := (roundUp src.width s.mLocalSize.1,
              roundUp src.height s.mLocalSize.2)
            localSize := s.mLocalSize } } := by
  unfold compute
  rw [if_neg (by simp [hc]), if_neg (not_le.mpr hs),
    if_neg (by simp [hW, hH])]

/-- Images of equal dimensions have the same sample sets. -/
theorem samples_eq_of_dims {img img' : Image} (hW : img'.width = img.width)
    (hH : img'.height = img.height) (r x y : Nat) :
    samples img' r x y = samples img r x y := by
  ext d
  rw [mem_samples, mem_samples, hW, hH]

/-- The corner denominator sums the weights of exactly the in-bounds
`[0,radius] x [0,radius]` set. -/
theorem denom_corner (w : WeightFn) (img : Image) (r : Nat) :
    denom w img r 0 0 = cornerDenom w img r := by
  unfold denom cornerDenom
  refine Finset.sum_nbij' (fun d => (d.1.toNat, d.2.toNat))
    (fun a => ((a.1 : ℤ), (a.2 : ℤ))) ?_ ?_ ?_ ?_ ?_
  · intro d hd
    rw [mem_samples] at hd
    push_cast at hd
    simp only [cornerSamples, Finset.mem_product, Finset.mem_range, lt_min_iff]
    omega
  · intro a ha
    simp only [cornerSamples, Finset.mem_product, Finset.mem_range, lt_min_iff] at ha
    rw [mem_samples]
    push_cast
    omega
  · intro d hd
    rw [mem_samples] at hd
    push_cast at hd
    exact Prod.ext (Int.toNat_of_nonneg (by omega)) (Int.toNat_of_nonneg (by omega))
  · intro a ha
    simp
  · intro d hd
    rw [mem_samples] at hd
    push_cast at hd
    have h1 : 0 ≤ d.1 := by omega
    have h2 : 0 ≤ d.2 := by omega
    have e1 : ((0 : ℕ) : ℤ) + d.1 = ((d.1.toNat : ℕ) : ℤ) := by
      rw [Int.toNat_of_nonneg h1]
      push_cast
      ring
    have e2 : ((0 : ℕ) : ℤ) + d.2 = ((d.2.toNat : ℕ) : ℤ) := by
      rw [Int.toNat_of_nonneg h2]
      push_cast
      ring
    rw [e1, e2, intensity_natCast, Int.toNat_of_nonneg h1, Int.toNat_of_nonneg h2]

/-- Two images that agree on the in-bounds corner window produce the same
denominator, numerator and center at the corner. -/
theorem corner_sums_eq (w : WeightFn) (img img' : Image) (r : Nat)
    (h0W : 0 < img.width) (h0H : 0 < img.height)
    (hW : img'.width = img.width) (hH : img'.height = img.height)
    (hagree : ∀ x y, x ≤ r → y ≤ r → x < img.width → y < img.height →
      img'.pix x y = img.pix x y) :
    denom w img' r 0 0 = denom w img r 0 0 ∧
    numer w img' r 0 0 = numer w img r 0 0 ∧
    img'.pix 0 0 = img.pix 0 0 := by
  have hs : samples img' r 0 0 = samples img r 0 0 := samples_eq_of_dims hW hH r 0 0
  have hcenter : img'.pix 0 0 = img.pix 0 0 :=
    hagree 0 0 (Nat.zero_le r) (Nat.zero_le r) h0W h0H
  have hint : ∀ d ∈ samples img r 0 0,
      img'.intensity (((0 : ℕ) : ℤ) + d.1) (((0 : ℕ) : ℤ) + d.2) =
        img.intensity (((0 : ℕ) : ℤ) + d.1) (((0 : ℕ) : ℤ) + d.2) := by
    intro d hd
    rw [mem_samples] at hd
    push_cast at hd
    unfold Image.intensity
    apply hagree <;> omega
  refine ⟨?_, ?_, hcenter⟩
  · unfold denom
    rw [hs, hcenter]
    exact Finset.sum_congr rfl fun d hd => by rw [hint d hd]
  · unfold numer
    rw [hs, hcenter]
    exact Finset.sum_congr rfl fun d hd => by rw [hint d hd]

/-- C1: for every radius (a natural number, hence >= 0) and every
rangeScalar > 0, a compute() after a successful compile() applied to a
source image whose pixels all equal the constant `c` reports Ok and writes
a dest image equal to the source: every output pixel equals the constant.
Holds for every weight function, hence for the spec's Gaussian weights. -/
theorem compute_constant_image_identity (w : WeightFn)
    (s : oclBilateralGaussian) (src dest : Image) (c : ℚ)
    (hc : s.compiled = true) (hs : 0 < s.rangeScalar)
    (hlx : 0 < s.mLocalSize.1) (hly : 0 < s.mLocalSize.2)
    (hW : src.width = dest.width) (hH : src.height = dest.height)
    (hconst : ∀ a b, src.pix a b = c) :
    (compute w s src dest).status = Status.Ok ∧
    ∀ x y, x < src.width → y < src.height →
      (compute w s src dest).dest.pix x y = c ∧
      (compute w s src dest).dest.pix x y = src.pix x y := by
  rw [compute_ok w s src dest hc hs hW hH]
  refine ⟨rfl, ?_⟩
  intro x y hx hy
  have h1 := runDispatch_pix w src dest s.radius s.mLocalSize.1 s.mLocalSize.2
    hlx hly x y hx hy
  have h2 := kernelPixel_const w src c hconst s.radius x y
  exact ⟨by rw [h1, h2], by rw [h1, h2, hconst]⟩

/-- Witness for C1 at a concrete constant 3x3 image. -/
theorem compute_constant_image_identity_witness :
    (compute wOne sReady imgConst imgConst).status = Status.Ok ∧
    ∀ x y, x < imgConst.width → y < imgConst.height →
      (compute wOne sReady imgConst imgConst).dest.pix x y = 5 ∧
      (compute wOne sReady imgConst imgConst).dest.pix x y = imgConst.pix x y :=
  compute_constant_image_identity wOne sReady imgConst imgConst 5 rfl
    (by norm_num [sReady]) (by decide) (by decide) rfl rfl (fun _ _ => rfl)

/-- Starting from a fresh instance, a call sequence containing no successful
compile leaves the instance uncompiled. -/
theorem runCalls_not_compiled (s : oclBilateralGaussian)
    (hs : s.compiled = false) (calls : List Call)
    (hnc : ∀ ok, Call.compileCall ok ∈ calls → ok = false) :
    (runCalls s calls).compiled = false := by
  induction calls generalizing s with
  | nil => exact hs
  | cons c cs ih =>
    cases c with
    | radiusCall v =>
      refine ih (setRadius s v).1 ?_ fun ok h => hnc ok (List.mem_cons_of_mem _ h)
      unfold setRadius
      rw [if_neg (by omega)]
      exact hs
    | scalarCall v =>
      exact ih (setScalar s v) hs fun ok h => hnc ok (List.mem_cons_of_mem _ h)
    | compileCall ok =>
      have hok : ok = false := hnc ok (List.mem_cons_self _ _)
      subst hok
      refine ih (compile s false).1 ?_ fun ok h => hnc ok (List.mem_cons_of_mem _ h)
      unfold compile
      rw [if_neg (by simp)]
      exact hs

/-- C2: a compute() issued on an instance on which no successful compile()
has happened (any sequence of setter calls and failed compiles may precede
it) returns NotCompiled and leaves dest completely unmodified. -/
theorem compute_before_compile_notCompiled (w : WeightFn) (calls : List Call)
    (src dest : Image)
    (hnc : ∀ ok, Call.compileCall ok ∈ calls → ok = false) :
    (compute w (runCalls init calls) src dest).status = Status.NotCompiled ∧
    (compute w (runCalls init calls) src dest).dest = dest ∧
    (compute w (runCalls init calls) src dest).dispatch = none := by
  have hc : (runCalls init calls).compiled = false :=
    runCalls_not_compiled init rfl calls hnc
  unfold compute
  rw [if_pos hc]
  exact ⟨rfl, rfl, rfl⟩

/-- Witness for C2: configure radius and scalar, fail one compile, then
compute. -/
theorem compute_before_compile_notCompiled_witness :
    (compute wOne (runCalls init
        [Call.radiusCall 1, Call.scalarCall 1, Call.compileCall false])
      imgConst imgConst).status = Status.NotCompiled ∧
    (compute wOne (runCalls init
        [Call.radiusCall 1, Call.scalarCall 1, Call.compileCall false])
      imgConst imgConst).dest = imgConst ∧
    (compute wOne (runCalls init
        [Call.radiusCall 1, Call.scalarCall 1, Call.compileCall false])
      imgConst imgConst).dispatch = none :=
  compute_before_compile_notCompiled wOne
    [Call.radiusCall 1, Call.scalarCall 1, Call.compileCall false]
    imgConst imgConst (by intro ok h; simpa using h)

/-- C3: out-of-bounds window taps are excluded from both sums: the corner
pixel (0,0) depends only on the in-bounds `[0,radius] x [0,radius]`
sub-neighborhood of the source, and the corner denominator sums exactly the
weights of that reduced set. -/
theorem corner_pixel_locality (w : WeightFn) (img img2 : Image) (r : Nat)
    (h0W : 0 < img.width) (h0H : 0 < img.height)
    (hW : img2.width = img.width) (hH : img2.height = img.height)
    (hagree : ∀ x y, x ≤ r → y ≤ r → x < img.width → y < img.height →
      img2.pix x y = img.pix x y) :
    kernelPixel w img2 r 0 0 = kernelPixel w img r 0 0 ∧
    denom w img r 0 0 = cornerDenom w img r := by
  obtain ⟨hd, hn, hcenter⟩ :=
    corner_sums_eq w img img2 r h0W h0H hW hH hagree
  refine ⟨?_, denom_corner w img r⟩
  unfold kernelPixel
  rw [hd, hn, hcenter]

/-- Witness for C3: a 3x3 image and a copy altered outside the corner
window agree at the corner. -/
theorem corner_pixel_locality_witness :
    kernelPixel wOne imgB 1 0 0 = kernelPixel wOne imgA 1 0 0 ∧
    denom wOne imgA 1 0 0 = cornerDenom wOne imgA 1 :=
  corner_pixel_locality wOne imgA imgB 1 (by decide) (by decide) rfl rfl
    (fun x y hx hy _ _ => by
      show (if 2 ≤ x ∨ 2 ≤ y then (99 : ℚ) else (x : ℚ) + 3 * y)
        = (x : ℚ) + 3 * y
      rw [if_neg (by omega)])

/-- C4: with radius 0 the filter is the identity transform: the kernel is
the identity on every in-bounds pixel for every weight function (hence for
every rangeScalar, with no division by zero thanks to the zero-denominator
guard), and a successful compute() with radius 0 copies the source. -/
theorem compute_radius_zero_identity (w : WeightFn)
    (s : oclBilateralGaussian) (src dest : Image)
    (hc : s.compiled = true) (hs : 0 < s.rangeScalar) (hr : s.radius = 0)
    (hlx : 0 < s.mLocalSize.1) (hly : 0 < s.mLocalSize.2)
    (hW : src.width = dest.width) (hH : src.height = dest.height) :
    (∀ w2 : WeightFn, ∀ x y, x < src.width → y < src.height →
      kernelPixel w2 src 0 x y = src.pix x y) ∧
    (compute w s src dest).status = Status.Ok ∧
    ∀ x y, x < src.width → y < src.height →
      (compute w s src dest).dest.pix x y = src.pix x y := by
  refine ⟨fun w2 x y hx hy => kernelPixel_radius_zero w2 src x y hx hy, ?_, ?_⟩
  · rw [compute_ok w s src dest hc hs hW hH]
  · intro x y hx hy
    rw [compute_ok w s src dest hc hs hW hH]
    have h1 := runDispatch_pix w src dest s.radius s.mLocalSize.1 s.mLocalSize.2
      hlx hly x y hx hy
    rw [h1, hr, kernelPixel_radius_zero w src x y hx hy]

/-- Witness for C4 at a concrete radius-0 state and 3x3 image. -/
theorem compute_radius_zero_identity_witness :
    (∀ w2 : WeightFn, ∀ x y, x < imgA.width → y < imgA.height →
      kernelPixel w2 imgA 0 x y = imgA.pix x y) ∧
    (compute wOne (setRadius sReady 0).1 imgA imgA).status = Status.Ok ∧
    ∀ x y, x < imgA.width → y < imgA.height →
      (compute wOne (setRadius sReady 0).1 imgA imgA).dest.pix x y
        = imgA.pix x y :=
  compute_radius_zero_identity wOne (setRadius sReady 0).1 imgA imgA rfl
    (by norm_num [setRadius, sReady]) rfl (by decide) (by decide) rfl rfl

/-- C5: a compute() whose source and dest dimensions differ reports an
error (never Ok), issues no dispatch, and leaves dest unmodified. -/
theorem compute_dim_mismatch_rejected (w : WeightFn)
    (s : oclBilateralGaussian) (src dest : Image)
    (hmis : src.width ≠ dest.width ∨ src.height ≠ dest.height) :
    (compute w s src dest).status ≠ Status.Ok ∧
    (compute w s src dest).dest = dest ∧
    (compute w s src dest).dispatch = none := by
  unfold compute
  by_cases h1 : s.compiled = false
  · rw [if_pos h1]
    exact ⟨fun h => Status.noConfusion h, rfl, rfl⟩
  · rw [if_neg h1]
    by_cases h2 : s.rangeScalar ≤ 0
    · rw [if_pos h2]
      exact ⟨fun h => Status.noConfusion h, rfl, rfl⟩
    · rw [if_neg h2, if_pos hmis]
      exact ⟨fun h => Status.noConfusion h, rfl, rfl⟩

/-- Witness for C5: a 3x3 source against a 2x2 dest. -/
theorem compute_dim_mismatch_rejected_witness :
    (compute wOne sReady imgA imgSmall).status ≠ Status.Ok ∧
    (compute wOne sReady imgA imgSmall).dest = imgSmall ∧
    (compute wOne sReady imgA imgSmall).dispatch = none :=
  compute_dim_mismatch_rejected wOne sReady imgA imgSmall (Or.inl (by decide))

/-- C6: a range scalar set to 0 or a negative value is a configuration
error: the next compute() signals InvalidParameter and never runs the
kernel (no dispatch, dest untouched), rather than producing degenerate
range weights. -/
theorem setScalar_nonpos_signals_invalidParameter (w : WeightFn)
    (s : oclBilateralGaussian) (v : ℚ) (src dest : Image)
    (hc : s.compiled = true) (hv : v ≤ 0) :
    (compute w (setScalar s v) src dest).status = Status.InvalidParameter ∧
    (compute w (setScalar s v) src dest).dispatch = none ∧
    (compute w (setScalar s v) src dest).dest = dest := by
  have h1 : ¬((setScalar s v).compiled = false) := by
    show ¬(s.compiled = false)
    rw [hc]
    simp
  have h2 : (setScalar s v).rangeScalar ≤ 0 := hv
  unfold compute
  rw [if_neg h1, if_pos h2]
  exact ⟨rfl, rfl, rfl⟩

/-- Witness for C6 with scalar 0. -/
theorem setScalar_nonpos_signals_invalidParameter_witness :
    (compute wOne (setScalar sReady 0) imgA imgA).status
      = Status.InvalidParameter ∧
    (compute wOne (setScalar sReady 0) imgA imgA).dispatch = none ∧
    (compute wOne (setScalar sReady 0) imgA imgA).dest = imgA :=
  setScalar_nonpos_signals_invalidParameter wOne sReady 0 imgA imgA rfl
    (by norm_num)

/-- C7: a successful compute() reports Ok, leaves the source unmodified,
and overwrites every pixel of dest exactly once with its filtered value:
each pixel appears exactly once in the masked, rounded-up dispatch list,
including when the dimensions are not multiples of the work-group shape. -/
theorem compute_full_coverage (w : WeightFn) (s : oclBilateralGaussian)
    (src dest : Image)
    (hc : s.compiled = true) (hs : 0 < s.rangeScalar)
    (hlx : 0 < s.mLocalSize.1) (hly : 0 < s.mLocalSize.2)
    (hW : src.width = dest.width) (hH : src.height = dest.height) :
    (compute w s src dest).status = Status.Ok ∧
    (compute w s src dest).source = src ∧
    ∀ x y, x < src.width → y < src.height →
      (maskedIds src.width src.height s.mLocalSize.1 s.mLocalSize.2).count
          (x, y) = 1 ∧
      (compute w s src dest).dest.pix x y = kernelPixel w src s.radius x y := by
  rw [compute_ok w s src dest hc hs hW hH]
  exact ⟨rfl, rfl, fun x y hx hy =>
    ⟨count_maskedIds hlx hly hx hy,
      runDispatch_pix w src dest s.radius s.mLocalSize.1 s.mLocalSize.2
        hlx hly x y hx hy⟩⟩

/-- Witness for C7 on a 3x3 image with a 2x2 work-group shape (dimensions
not a multiple of the shape). -/
theorem compute_full_coverage_witness :
    (compute wOne sReady imgA imgA).status = Status.Ok ∧
    (compute wOne sReady imgA imgA).source = imgA ∧
    ∀ x y, x < imgA.width → y < imgA.height →
      (maskedIds imgA.width imgA.height sReady.mLocalSize.1
          sReady.mLocalSize.2).count (x, y) = 1 ∧
      (compute wOne sReady imgA imgA).dest.pix x y
        = kernelPixel wOne imgA sReady.radius x y :=
  compute_full_coverage wOne sReady imgA imgA rfl (by norm_num [sReady])
    (by decide) (by decide) rfl rfl

/-- C8: when a pixel's accumulated weight denominator is zero (all weights
underflowed to zero), the kernel's policy defines the output as the center
intensity, and compute() still reports Ok rather than an error. -/
theorem zero_denom_center_policy (w : WeightFn) (s : oclBilateralGaussian)
    (src dest : Image) (x y : Nat)
    (hc : s.compiled = true) (hs : 0 < s.rangeScalar)
    (hlx : 0 < s.mLocalSize.1) (hly : 0 < s.mLocalSize.2)
    (hW : src.width = dest.width) (hH : src.height = dest.height)
    (hx : x < src.width) (hy : y < src.height)
    (hz : denom w src s.radius x y = 0) :
    (compute w s src dest).dest.pix x y = src.pix x y ∧
    (compute w s src dest).status = Status.Ok := by
  rw [compute_ok w s src dest hc hs hW hH]
  refine ⟨?_, rfl⟩
  rw [runDispatch_pix w src dest s.radius s.mLocalSize.1 s.mLocalSize.2
    hlx hly x y hx hy]
  unfold kernelPixel
  rw [if_pos hz]

/-- Witness for C8: the all-zero weight function makes every denominator
zero. -/
theorem zero_denom_center_policy_witness :
    (compute wZero sReady imgConst imgConst).dest.pix 0 0 = imgConst.pix 0 0 ∧
    (compute wZero sReady imgConst imgConst).status = Status.Ok :=
  zero_denom_center_policy wZero sReady imgConst imgConst 0 0 rfl
    (by norm_num [sReady]) (by decide) (by decide) rfl rfl (by decide)
    (by decide) (by simp [denom, wZero])

/-- C9: the public setRadius interface takes a cl_uint, so a negative
radius is not representable at the call boundary: the InvalidParameter
branch for a negative radius is unreachable, and every setRadius call
stores the value and reports Ok. -/
theorem setRadius_negative_branch_unreachable (s : oclBilateralGaussian)
    (v : Nat) :
    (setRadius s v).2 ≠ Status.InvalidParameter ∧
    (setRadius s v).2 = Status.Ok ∧
    (setRadius s v).1 = { s with radius := v } := by
  unfold setRadius
  rw [if_neg (by omega)]
  exact ⟨fun h => Status.noConfusion h, rfl, rfl⟩

/-- Any dispatch a compute() issues uses the instance's stored
mLocalSize. -/
theorem compute_dispatch_localSize (w : WeightFn) (s : oclBilateralGaussian)
    (src dest : Image) (d : Dispatch)
    (h : (compute w s src dest).dispatch = some d) :
    d.localSize = s.mLocalSize := by
  unfold compute at h
  by_cases h1 : s.compiled = false
  · rw [if_pos h1] at h
    exact absurd h (by simp)
  · rw [if_neg h1] at h
    by_cases h2 : s.rangeScalar ≤ 0
    · rw [if_pos h2] at h
      exact absurd h (by simp)
    · rw [if_neg h2] at h
      by_cases h3 : src.width ≠ dest.width ∨ src.height ≠ dest.height
      · rw [if_pos h3] at h
        exact absurd h (by simp)
      · rw [if_neg h3] at h
        simp only [Option.some.injEq] at h
        rw [← h]

/-- C10: mLocalSize is a fixed per-instance field, not a parameter of
compile() or compute() and not derived from the images: every dispatch on
the same instance uses the same local work-group size, and no setter or
compile call changes the field. -/
theorem mLocalSize_fixed_per_instance (w : WeightFn)
    (s : oclBilateralGaussian) (src1 dest1 src2 dest2 : Image)
    (d1 d2 : Dispatch)
    (h1 : (compute w s src1 dest1).dispatch = some d1)
    (h2 : (compute w s src2 dest2).dispatch = some d2) :
    d1.localSize = s.mLocalSize ∧ d2.localSize = s.mLocalSize ∧
    d1.localSize = d2.localSize ∧
    (∀ v, ((setRadius s v).1).mLocalSize = s.mLocalSize) ∧
    (∀ v, (setScalar s v).mLocalSize = s.mLocalSize) ∧
    (∀ ok, ((compile s ok).1).mLocalSize = s.mLocalSize) := by
  have e1 := compute_dispatch_localSize w s src1 dest1 d1 h1
  have e2 := compute_dispatch_localSize w s src2 dest2 d2 h2
  refine ⟨e1, e2, by rw [e1, e2], ?_, fun v => rfl, ?_⟩
  · intro v
    unfold setRadius
    rw [if_neg (by omega)]
  · intro ok
    unfold compile
    by_cases h : ok = true
    · rw [if_pos h]
    · rw [if_neg h]

/-- Witness for C10: two dispatches of the same instance over images of
different sizes use the same local size. -/
theorem mLocalSize_fixed_per_instance_witness :
    (⟨(4, 4), (2, 2)⟩ : Dispatch).localSize = sReady.mLocalSize ∧
    (⟨(2, 2), (2, 2)⟩ : Dispatch).localSize = sReady.mLocalSize ∧
    (⟨(4, 4), (2, 2)⟩ : Dispatch).localSize
      = (⟨(2, 2), (2, 2)⟩ : Dispatch).localSize ∧
    (∀ v, ((setRadius sReady v).1).mLocalSize = sReady.mLocalSize) ∧
    (∀ v, (setScalar sReady v).mLocalSize = sReady.mLocalSize) ∧
    (∀ ok, ((compile sReady ok).1).mLocalSize = sReady.mLocalSize) :=
  mLocalSize_fixed_per_instance wOne sReady imgA imgA imgSmall imgSmall
    ⟨(4, 4), (2, 2)⟩ ⟨(2, 2), (2, 2)⟩ (by decide) (by decide)

end LibCL
